import Mathlib

/-!
Verification development for the natural-gradient variational update described by the
repository's design specification, together with a model of the import-time effects of
`gpflow/__init__.py`.

The repository's own source contains only a tutorial notebook (glue code over a pre-built
`NaturalGradient` optimizer) and a thin package `__init__`.  The optimizer itself is not part
of the provided source, so the definitions below are modelled from the specification's
language-agnostic design of `NaturalGradientStep`, and the theorems settle the specification's
claims against that model.  Reals stand in for the floating-point numbers of the host
framework, so "within numerical tolerance" statements become exact equalities.
-/

open Matrix
open scoped Classical

noncomputable section

namespace GPflow

/-- Modelled from the spec: a `VariationalGaussian` represents an approximate posterior
`q(u) = N(q_mu, q_sqrt q_sqrtᵀ)`; `q_mu` is a length-`n` mean vector and `q_sqrt` a square
`n × n` (Cholesky-like) factor of the covariance.  This is the typed core view on which the
step's linear algebra operates. -/
structure VariationalGaussian (n : ℕ) where
  q_mu : Fin n → ℝ
  q_sqrt : Matrix (Fin n) (Fin n) ℝ

/-- The covariance `Sigma = q_sqrt q_sqrtᵀ` represented by the state. -/
def covOf {n : ℕ} (v : VariationalGaussian n) : Matrix (Fin n) (Fin n) ℝ :=
  v.q_sqrt * v.q_sqrtᵀ

/-- A (vector, matrix) pair of Gaussian coordinates; used for the natural parameters
`(eta1, eta2)` and for gradients in the expectation parameterization. -/
structure VecMat (n : ℕ) where
  vec : Fin n → ℝ
  mat : Matrix (Fin n) (Fin n) ℝ

/-- Componentwise subtraction on coordinate pairs. -/
def VecMat.sub {n : ℕ} (a b : VecMat n) : VecMat n :=
  ⟨a.vec - b.vec, a.mat - b.mat⟩

/-- Scalar multiple of a coordinate pair. -/
def VecMat.smul {n : ℕ} (c : ℝ) (a : VecMat n) : VecMat n :=
  ⟨c • a.vec, c • a.mat⟩

/-- Modelled from the spec (algorithm step 1): the natural parameterization of the Gaussian,
`eta1 = Sigma⁻¹ mu`, `eta2 = -1/2 Sigma⁻¹`. -/
def naturalOfMeanCov {n : ℕ} (mu : Fin n → ℝ) (Sigma : Matrix (Fin n) (Fin n) ℝ) : VecMat n :=
  ⟨Sigma⁻¹ *ᵥ mu, (-(1 : ℝ) / 2) • Sigma⁻¹⟩

/-- The natural parameters of the current state. -/
def naturalOf {n : ℕ} (v : VariationalGaussian n) : VecMat n :=
  naturalOfMeanCov v.q_mu (covOf v)

/-- Modelled from the spec (algorithm step 5): convert natural parameters back to the mean
parameterization, `Sigma = (-2 eta2)⁻¹` and `mu = Sigma eta1`. -/
def meanCovOfNatural {n : ℕ} (t : VecMat n) : (Fin n → ℝ) × Matrix (Fin n) (Fin n) ℝ :=
  (((-2 : ℝ) • t.mat)⁻¹ *ᵥ t.vec, ((-2 : ℝ) • t.mat)⁻¹)

/-- Modelled from the spec: one evaluation of the loss callable - a scalar loss value
together with the Euclidean gradient exposed by the host autodiff facility, taken with
respect to the coordinate system of the chosen reparameterization (`gvec` for the vector
coordinate, `gmat` for the matrix coordinate). -/
structure LossEval (n : ℕ) where
  value : ℝ
  gvec : Fin n → ℝ
  gmat : Matrix (Fin n) (Fin n) ℝ

/-- Modelled from the spec: the two supported reparameterization variants - `default`
(mean/sqrt-covariance space with the built-in natural/expectation/mean mapping) and
`XiSqrtMeanVar`. -/
inductive Reparameterization
  | default
  | xiSqrtMeanVar
deriving DecidableEq

/-- Modelled from the spec: the reparameterization tag carried by a parameter pair; a tag
other than the two known variants is a configuration error. -/
def Reparameterization.ofTag : String → Option Reparameterization
  | "default" => some Reparameterization.default
  | "XiSqrtMeanVar" => some Reparameterization.xiSqrtMeanVar
  | _ => none

/-- Modelled from the spec (algorithm step 3): convert the Euclidean gradient in
mean-parameter space `(gmu, gSigma)` into the gradient in the expectation parameterization
`(mu, mu muᵀ + Sigma)`, which by the Gaussian Fisher-information relationship is exactly the
natural gradient.  The closed-form Jacobian gives `dL/dxi1 = gmu - 2 gSigma mu` and
`dL/dxi2 = gSigma` (for symmetric `gSigma`). -/
def expectationGradOfMeanGrad {n : ℕ} (mu gmu : Fin n → ℝ)
    (gSigma : Matrix (Fin n) (Fin n) ℝ) : VecMat n :=
  ⟨gmu - (2 : ℝ) • (gSigma *ᵥ mu), gSigma⟩

/-- Modelled from the spec (algorithm steps 2 and 6): the gradient delivered by the loss
callable is with respect to the variant's own coordinates; map it into mean-parameter space
using the variant's Jacobian.  For `default` the callable already exposes `(dL/dmu, dL/dSigma)`.
For `XiSqrtMeanVar` the matrix coordinate is the sqrt factor `s` with `Sigma = s sᵀ`, whose
chain rule gives `dL/ds = (dL/dSigma + dL/dSigmaᵀ) s`; inverting it for symmetric `dL/dSigma`
recovers `dL/dSigma = 1/2 (dL/ds) s⁻¹`. -/
def meanGradOfRep {n : ℕ} (rep : Reparameterization) (v : VariationalGaussian n)
    (g : LossEval n) : (Fin n → ℝ) × Matrix (Fin n) (Fin n) ℝ :=
  match rep with
  | Reparameterization.default => (g.gvec, g.gmat)
  | Reparameterization.xiSqrtMeanVar => (g.gvec, ((1 : ℝ) / 2) • (g.gmat * v.q_sqrt⁻¹))

/-- The natural gradient: the loss callable's Euclidean gradient, mapped into mean-parameter
space by the variant's Jacobian and then expressed in the expectation parameterization. -/
def naturalGradOf {n : ℕ} (rep : Reparameterization) (v : VariationalGaussian n)
    (g : LossEval n) : VecMat n :=
  expectationGradOfMeanGrad v.q_mu (meanGradOfRep rep v g).1 (meanGradOfRep rep v g).2

/-- Lower-triangularity of a square matrix: all entries strictly above the diagonal vanish. -/
def IsLowerTriangular {n : ℕ} (L : Matrix (Fin n) (Fin n) ℝ) : Prop :=
  ∀ i j, i < j → L i j = 0

/-- A Cholesky factor of `S`: lower triangular with nonnegative diagonal and `L Lᵀ = S`. -/
def IsCholeskyFactor {n : ℕ} (S L : Matrix (Fin n) (Fin n) ℝ) : Prop :=
  IsLowerTriangular L ∧ (∀ i, 0 ≤ L i i) ∧ L * Lᵀ = S

/-- The matrix admits a Cholesky factorization. -/
def HasCholesky {n : ℕ} (S : Matrix (Fin n) (Fin n) ℝ) : Prop :=
  ∃ L, IsCholeskyFactor S L

/-- Modelled from the spec: the Cholesky-decomposition facility is an external linear-algebra
collaborator; it is modelled by its defining property, returning some Cholesky factor of `S`
whenever one exists. -/
def cholesky {n : ℕ} (S : Matrix (Fin n) (Fin n) ℝ) : Matrix (Fin n) (Fin n) ℝ :=
  if h : HasCholesky S then h.choose else 0

theorem cholesky_spec {n : ℕ} {S : Matrix (Fin n) (Fin n) ℝ} (h : HasCholesky S) :
    IsCholeskyFactor S (cholesky S) := by
  rw [cholesky, dif_pos h]
  exact h.choose_spec

/-- Modelled from the spec (algorithm steps 1-5): the proposed update in the mean
parameterization - take the step `eta_new = eta_old - gamma * natural_gradient` in
natural-parameter space and convert back to `(mu, Sigma)`. -/
def proposedUpdate {n : ℕ} (rep : Reparameterization) (gamma : ℝ) (g : LossEval n)
    (v : VariationalGaussian n) : (Fin n → ℝ) × Matrix (Fin n) (Fin n) ℝ :=
  meanCovOfNatural (VecMat.sub (naturalOf v) (VecMat.smul gamma (naturalGradOf rep v g)))

/-- Modelled from the spec: the core of one `NaturalGradientStep` invocation on the typed
view - compute the proposed `(mu, Sigma)`, factor `Sigma` by Cholesky to recover `q_sqrt`,
and produce the new state; `none` signals the recoverable `NumericalError` (Cholesky
failure), leaving nothing committed. -/
def stepCore {n : ℕ} (rep : Reparameterization) (gamma : ℝ) (g : LossEval n)
    (v : VariationalGaussian n) : Option (VariationalGaussian n) :=
  if HasCholesky (proposedUpdate rep gamma g v).2 then
    some ⟨(proposedUpdate rep gamma g v).1, cholesky (proposedUpdate rep gamma g v).2⟩
  else none

/-- Modelled from the spec: a `ParameterPair` is an ownership-free reference grouping of
(`q_mu`, `q_sqrt`) plus a reparameterization tag, used only as an update target.  At this
API boundary `q_mu` is an ordered sequence of reals and `q_sqrt` a sequence of rows, so that
shape mismatches are expressible. -/
structure ParameterPair where
  q_mu : List ℝ
  q_sqrt : List (List ℝ)
  tag : String

/-- The shapes of `q_mu` and `q_sqrt` match: `q_sqrt` is square of side `q_mu.length`. -/
def wellShaped (p : ParameterPair) : Prop :=
  p.q_sqrt.length = p.q_mu.length ∧ ∀ r ∈ p.q_sqrt, r.length = p.q_mu.length

/-- The mean vector of a parameter pair, as a typed vector. -/
def muVec (p : ParameterPair) : Fin p.q_mu.length → ℝ :=
  fun i => p.q_mu.getD i.1 0

/-- The sqrt factor of a parameter pair, as a typed square matrix. -/
def sqrtMat (p : ParameterPair) : Matrix (Fin p.q_mu.length) (Fin p.q_mu.length) ℝ :=
  fun i j => (p.q_sqrt.getD i.1 []).getD j.1 0

/-- The typed core view of a parameter pair. -/
def finView (p : ParameterPair) : VariationalGaussian p.q_mu.length :=
  ⟨muVec p, sqrtMat p⟩

/-- Write a typed state back into parameter-pair storage, keeping the tag. -/
def pairOfCore {n : ℕ} (v : VariationalGaussian n) (tag : String) : ParameterPair :=
  ⟨List.ofFn v.q_mu, List.ofFn fun i => List.ofFn fun j => v.q_sqrt i j, tag⟩

/-- Modelled from the spec: one evaluation result of the loss callable at the API boundary,
gradients given as sequences like the parameters themselves. -/
structure LossEvalL where
  value : ℝ
  dmu : List ℝ
  dSigma : List (List ℝ)

/-- Read an API-level loss evaluation as a typed gradient of dimension `n`. -/
def lossEvalAt (n : ℕ) (g : LossEvalL) : LossEval n :=
  ⟨g.value, fun i => g.dmu.getD i.1 0, fun i j => (g.dSigma.getD i.1 []).getD j.1 0⟩

/-- Modelled from the spec: the two error kinds of `NaturalGradientStep`. -/
inductive NatGradError
  | configurationError
  | numericalError
deriving DecidableEq

/-- Modelled from the spec: one full `NaturalGradientStep` invocation.  The loss callable is
modelled as a stream `losses` of evaluation results together with the number `calls` of
evaluations drawn so far (minibatch callables may return a fresh loss on each call); the
returned count is the callable's state after the invocation.  Configuration validation
(positive `gamma`, matching shapes, known tag) happens first, before the callable is ever
consulted; then the loss is evaluated exactly once, the proposed update is computed, and it
is committed only if the Cholesky factorization succeeds. -/
def naturalGradientStep (gamma : ℝ) (losses : ℕ → LossEvalL) (p : ParameterPair)
    (calls : ℕ) : Except NatGradError ParameterPair × ℕ :=
  match Reparameterization.ofTag p.tag with
  | none => (Except.error NatGradError.configurationError, calls)
  | some rep =>
    if 0 < gamma ∧ wellShaped p then
      match stepCore rep gamma (lossEvalAt p.q_mu.length (losses calls)) (finView p) with
      | some w => (Except.ok (pairOfCore w p.tag), calls + 1)
      | none => (Except.error NatGradError.numericalError, calls + 1)
    else (Except.error NatGradError.configurationError, calls)

/-- Modelled from the spec: the caller-visible, all-or-nothing effect of one invocation - the
parameter pair after the call (unchanged when an error is raised), the callable's state, and
the error, if any, that was raised. -/
def runStep (gamma : ℝ) (losses : ℕ → LossEvalL) (p : ParameterPair) (calls : ℕ) :
    ParameterPair × ℕ × Option NatGradError :=
  match naturalGradientStep gamma losses p calls with
  | (Except.ok q, k) => (q, k, none)
  | (Except.error e, k) => (p, k, some e)

/-- Modelled from the spec: the loss evaluation produced at state `v` by a conjugate
(Gaussian-likelihood) model whose true posterior is `N(tmu, tSig)`.  The negative evidence
lower bound then equals `KL(q, N(tmu, tSig))` up to an additive constant, whose Euclidean
gradient in the mean parameterization is `dL/dmu = tSig⁻¹ (mu - tmu)` and
`dL/dSigma = 1/2 (tSig⁻¹ - Sigma⁻¹)`.  The scalar value is never read by the update and is
set to `0`. -/
def conjugateLossEval {n : ℕ} (tmu : Fin n → ℝ) (tSig : Matrix (Fin n) (Fin n) ℝ)
    (v : VariationalGaussian n) : LossEval n :=
  ⟨0, tSig⁻¹ *ᵥ (v.q_mu - tmu), ((1 : ℝ) / 2) • (tSig⁻¹ - (covOf v)⁻¹)⟩

/-- Modelled from the spec: a multi-output distribution is an ordered sequence of independent
`(q_mu, q_sqrt)` blocks; the step is applied independently per output dimension, given the
per-output gradients, and succeeds only if every per-output step succeeds. -/
def multiStepCore {n : ℕ} (rep : Reparameterization) (gamma : ℝ) :
    List (LossEval n) → List (VariationalGaussian n) →
      Option (List (VariationalGaussian n))
  | [], [] => some []
  | g :: gs, v :: vs => do
    let w ← stepCore rep gamma g v
    let ws ← multiStepCore rep gamma gs vs
    some (w :: ws)
  | _ :: _, [] => none
  | [], _ :: _ => none

/-- A minibatch of training data: a sequence of (input, target) rows. -/
def Minibatch : Type := List (ℝ × ℝ)

/-- Modelled from the spec: a training loop over the API-level step - the component holds no
loop state between calls except the parameters it mutates and the callable's own evaluation
count; on an error the pair stays in its last valid state. -/
def trainTrajectory (gamma : ℝ) (losses : ℕ → LossEvalL) (p0 : ParameterPair) :
    ℕ → ParameterPair × ℕ
  | 0 => (p0, 0)
  | k + 1 =>
    let s := trainTrajectory gamma losses p0 k
    let r := runStep gamma losses s.1 s.2
    (r.1, r.2.1)

/-- Modelled from the spec: the loss callable generated by a seeded minibatch pipeline - the
evaluation stream is a pure function of the random seed and of the sequence of minibatches
fed to the run, so it is the only source of run-to-run variation. -/
def seededLossStream (mk : ℕ → (ℕ → Minibatch) → ℕ → LossEvalL) (seed : ℕ)
    (batches : ℕ → Minibatch) : ℕ → LossEvalL :=
  mk seed batches

/-- Modelled from the spec: the loss callable induced on the typed view by one underlying
loss with mean-parameter gradient fields `Gmu` and `GSig`, differentiated in the coordinate
system of the given reparameterization.  For `XiSqrtMeanVar` the matrix coordinate is the
sqrt factor `s`, and the chain rule for `Sigma = s sᵀ` gives `dL/ds = (GSig + GSigᵀ) s`. -/
def lossEvalFor {n : ℕ} (rep : Reparameterization) (Gmu : VariationalGaussian n → Fin n → ℝ)
    (GSig : VariationalGaussian n → Matrix (Fin n) (Fin n) ℝ) (v : VariationalGaussian n) :
    LossEval n :=
  match rep with
  | Reparameterization.default => ⟨0, Gmu v, GSig v⟩
  | Reparameterization.xiSqrtMeanVar => ⟨0, Gmu v, (GSig v + (GSig v)ᵀ) * v.q_sqrt⟩

/-- Modelled from the spec: repeated invocation of the core step under a fixed
reparameterization and a fixed underlying loss, from a fixed initial state; a failing step
leaves the state in its last valid value. -/
def lossTrajectory {n : ℕ} (rep : Reparameterization) (gamma : ℝ)
    (Gmu : VariationalGaussian n → Fin n → ℝ)
    (GSig : VariationalGaussian n → Matrix (Fin n) (Fin n) ℝ)
    (v0 : VariationalGaussian n) : ℕ → VariationalGaussian n
  | 0 => v0
  | k + 1 =>
    let v := lossTrajectory rep gamma Gmu GSig v0 k
    (stepCore rep gamma (lossEvalFor rep Gmu GSig v) v).getD v

/-- The raw coordinates of a typed state, for stating convergence of a trajectory. -/
def coords {n : ℕ} (v : VariationalGaussian n) :
    (Fin n → ℝ) × Matrix (Fin n) (Fin n) ℝ :=
  (v.q_mu, v.q_sqrt)

/-- Modelled from the spec: the rest of a model's state (kernel hyperparameters, data, ...)
alongside the one parameter pair a step targets; the step must touch nothing outside the
pair. -/
structure TrainingWorld (α : Type) where
  pair : ParameterPair
  rest : α

/-- Modelled from the spec: `minimize` applied to a world - no return value beyond the
updated world, the callable's state and the reported error; only the pair slot is updated. -/
def minimizeStep {α : Type} (gamma : ℝ) (losses : ℕ → LossEvalL) (calls : ℕ)
    (w : TrainingWorld α) : TrainingWorld α × ℕ × Option NatGradError :=
  let r := runStep gamma losses w.pair calls
  (⟨r.1, w.rest⟩, r.2)

/-- Modelled from the notebook's usage: a vector-valued model variable with its `trainable`
flag (`q_mu`). -/
structure TrainableValue where
  value : List ℝ
  trainable : Bool

/-- Modelled from the notebook's usage: a matrix-valued model variable with its `trainable`
flag (`q_sqrt`). -/
structure TrainableMatrixValue where
  value : List (List ℝ)
  trainable : Bool

/-- The parameter pair explicitly passed to the natural-gradient optimizer in `var_list`;
only the stored values enter, never the `trainable` flags. -/
def pairOfVars (a : TrainableValue) (b : TrainableMatrixValue) (tag : String) :
    ParameterPair :=
  ⟨a.value, b.value, tag⟩

/-- Modelled from the notebook's usage: `NaturalGradient.minimize` on an explicit `var_list`
entry - it updates the stored values through the step and leaves the `trainable` flags as
they were. -/
def minimizeVars (gamma : ℝ) (losses : ℕ → LossEvalL) (calls : ℕ) (a : TrainableValue)
    (b : TrainableMatrixValue) (tag : String) :
    (TrainableValue × TrainableMatrixValue) × ℕ × Option NatGradError :=
  let r := runStep gamma losses (pairOfVars a b tag) calls
  ((⟨r.1.q_mu, a.trainable⟩, ⟨r.1.q_sqrt, b.trainable⟩), r.2)

/-- A variable registered on a model, as seen by generic gradient-based optimizers. -/
inductive ModelVariable
  | vec (v : TrainableValue)
  | mat (m : TrainableMatrixValue)

/-- Whether a model variable is currently trainable. -/
def ModelVariable.isTrainable : ModelVariable → Bool
  | ModelVariable.vec v => v.trainable
  | ModelVariable.mat m => m.trainable

/-- Modelled from the notebook's usage: `model.trainable_variables` - the variables other
optimizers see - keeps exactly the variables whose `trainable` flag is set. -/
def trainableVariables (vars : List ModelVariable) : List ModelVariable :=
  vars.filter ModelVariable.isTrainable

end GPflow

namespace GPflowInit

/-- The import-time effects of `gpflow/__init__.py`, in source order: the tensorflow import,
the `tf.enable_eager_execution()` call, and then the re-exporting imports (`__version__`,
`settings`, `kernels`, `Parameter`, `positive`/`triangular`). -/
inductive ImportEffect
  | importTensorflow
  | enableEagerExecution
  | reexportVersion
  | reexportSettings
  | reexportKernels
  | reexportParameter
  | reexportPositiveTriangular
deriving DecidableEq

/-- The statement sequence of `gpflow/__init__.py`, in source order. -/
def gpflowImportProgram : List ImportEffect :=
  [ImportEffect.importTensorflow, ImportEffect.enableEagerExecution,
   ImportEffect.reexportVersion, ImportEffect.reexportSettings, ImportEffect.reexportKernels,
   ImportEffect.reexportParameter, ImportEffect.reexportPositiveTriangular]

/-- Whether an import effect re-exports a symbol from the underlying library. -/
def ImportEffect.isReexport : ImportEffect → Bool
  | ImportEffect.reexportVersion => true
  | ImportEffect.reexportSettings => true
  | ImportEffect.reexportKernels => true
  | ImportEffect.reexportParameter => true
  | ImportEffect.reexportPositiveTriangular => true
  | _ => false

/-- The process-wide tensorflow state visible to the importer: whether eager execution has
been enabled. -/
structure ProcessState where
  eagerEnabled : Bool
deriving DecidableEq

/-- Effect of one import-time statement on the process state:
`tf.enable_eager_execution()` enables eager execution for the whole process, every other
statement leaves the flag alone. -/
def applyEffect (s : ProcessState) : ImportEffect → ProcessState
  | ImportEffect.enableEagerExecution => ⟨true⟩
  | _ => s

/-- Run a sequence of import-time statements from a given process state. -/
def runImport (s : ProcessState) (es : List ImportEffect) : ProcessState :=
  es.foldl applyEffect s

end GPflowInit

namespace GPflow

/-- Any representation of a covariance by a lower-triangular factor can be normalized, by
flipping the signs of columns, into a Cholesky factor with nonnegative diagonal. -/
theorem hasCholesky_of_lower {n : ℕ} {S : Matrix (Fin n) (Fin n) ℝ}
    (h : ∃ L, IsLowerTriangular L ∧ L * Lᵀ = S) : HasCholesky S := by
  obtain ⟨L, hL, hLS⟩ := h
  refine ⟨L * Matrix.diagonal fun j => if L j j < 0 then (-1 : ℝ) else 1, ?_, ?_, ?_⟩
  · intro i j hij
    rw [Matrix.mul_diagonal, hL i j hij, zero_mul]
  · intro i
    rw [Matrix.mul_diagonal]
    by_cases hneg : L i i < 0
    · rw [if_pos hneg]; nlinarith
    · rw [if_neg hneg]; push_neg at hneg; nlinarith
  · have hDD : Matrix.diagonal (fun j => if L j j < 0 then (-1 : ℝ) else 1) *
        Matrix.diagonal (fun j => if L j j < 0 then (-1 : ℝ) else 1) =
          (1 : Matrix (Fin n) (Fin n) ℝ) := by
      rw [Matrix.diagonal_mul_diagonal]
      ext i j
      by_cases hij : i = j
      · subst hij
        rw [Matrix.diagonal_apply_eq, Matrix.one_apply_eq]
        by_cases hneg : L i i < 0 <;> simp [hneg]
      · rw [Matrix.diagonal_apply_ne _ hij, Matrix.one_apply_ne hij]
    calc (L * Matrix.diagonal fun j => if L j j < 0 then (-1 : ℝ) else 1) *
          (L * Matrix.diagonal fun j => if L j j < 0 then (-1 : ℝ) else 1)ᵀ
        = L * ((Matrix.diagonal fun j => if L j j < 0 then (-1 : ℝ) else 1) *
            (Matrix.diagonal fun j => if L j j < 0 then (-1 : ℝ) else 1)ᵀ) * Lᵀ := by
          rw [Matrix.transpose_mul]
          rw [Matrix.mul_assoc, Matrix.mul_assoc, Matrix.mul_assoc]
      _ = L * Lᵀ := by rw [Matrix.diagonal_transpose, hDD, Matrix.mul_one]
      _ = S := hLS

/-- Under the conjugate (Gaussian-likelihood) loss, a step of size `gamma = 1` proposes exactly
the true posterior mean and covariance. -/
theorem conjugate_proposedUpdate {n : ℕ} (tmu : Fin n → ℝ)
    (tSig : Matrix (Fin n) (Fin n) ℝ) (hdet : IsUnit tSig.det)
    (v : VariationalGaussian n) :
    proposedUpdate Reparameterization.default 1 (conjugateLossEval tmu tSig v) v
      = (tmu, tSig) := by
  have hvec : (naturalOf v).vec - (1 : ℝ) •
      (naturalGradOf Reparameterization.default v (conjugateLossEval tmu tSig v)).vec
        = tSig⁻¹ *ᵥ tmu := by
    simp only [naturalOf, naturalOfMeanCov, naturalGradOf, meanGradOfRep,
      expectationGradOfMeanGrad, conjugateLossEval]
    funext i
    simp only [Matrix.mulVec_sub, Matrix.sub_mulVec, Matrix.smul_mulVec_assoc,
      Pi.sub_apply, Pi.smul_apply, smul_eq_mul]
    ring
  have hmat : (naturalOf v).mat - (1 : ℝ) •
      (naturalGradOf Reparameterization.default v (conjugateLossEval tmu tSig v)).mat
        = (-(1 : ℝ) / 2) • tSig⁻¹ := by
    simp only [naturalOf, naturalOfMeanCov, naturalGradOf, meanGradOfRep,
      expectationGradOfMeanGrad, conjugateLossEval]
    ext i j
    simp only [Matrix.sub_apply, Matrix.smul_apply, smul_eq_mul]
    ring
  have hstep : VecMat.sub (naturalOf v) (VecMat.smul 1
      (naturalGradOf Reparameterization.default v (conjugateLossEval tmu tSig v)))
        = ⟨tSig⁻¹ *ᵥ tmu, (-(1 : ℝ) / 2) • tSig⁻¹⟩ := by
    simp only [VecMat.sub, VecMat.smul]
    exact congrArg₂ VecMat.mk hvec hmat
  rw [proposedUpdate, hstep, meanCovOfNatural]
  have hS : ((-2 : ℝ) • ((-(1 : ℝ) / 2) • tSig⁻¹)) = tSig⁻¹ := by
    rw [smul_smul]; norm_num
  rw [hS, Matrix.nonsing_inv_nonsing_inv _ hdet, Matrix.mulVec_mulVec,
    Matrix.mul_nonsing_inv _ hdet, Matrix.one_mulVec]

/-- C1: for every conjugate (Gaussian-likelihood) model whose variational family can
represent the true posterior `N(tmu, tSig)` exactly (a lower-triangular factor of `tSig`
exists) and whose true posterior is nondegenerate, one `NaturalGradientStep` with
`gamma = 1.0` from any initial `(q_mu, q_sqrt)` commits, and writes exactly the true
posterior mean and covariance into the parameter pair. -/
theorem one_step_exact_recovery {n : ℕ} (tmu : Fin n → ℝ)
    (tSig : Matrix (Fin n) (Fin n) ℝ)
    (hflex : ∃ L, IsLowerTriangular L ∧ L * Lᵀ = tSig)
    (hdet : IsUnit tSig.det) (v : VariationalGaussian n) :
    ∃ w, stepCore Reparameterization.default 1 (conjugateLossEval tmu tSig v) v = some w ∧
      w.q_mu = tmu ∧ covOf w = tSig := by
  have hchol : HasCholesky tSig := hasCholesky_of_lower hflex
  have hprop := conjugate_proposedUpdate tmu tSig hdet v
  refine ⟨⟨tmu, cholesky tSig⟩, ?_, rfl, (cholesky_spec hchol).2.2⟩
  rw [stepCore, hprop]
  exact if_pos hchol

/-- The spec's scenario: true posterior mean `[1, 1]`. -/
def scenarioTrueMu : Fin 2 → ℝ := ![1, 1]

/-- The spec's scenario: true posterior covariance `0.5 * I`. -/
def scenarioTrueSigma : Matrix (Fin 2) (Fin 2) ℝ := ((1 : ℝ) / 2) • 1

/-- The spec's scenario: initial distribution `N(0, I)`, i.e. `q_mu = [0,0]`, `q_sqrt = I`. -/
def scenarioInit : VariationalGaussian 2 := ⟨![0, 0], 1⟩

/-- Witness for C1 at the spec's own scenario: from `q = N(0, I)` towards the true posterior
`N([1,1], 0.5 * I)`, one step with `gamma = 1.0` lands exactly on `mu = [1,1]`,
`Sigma = 0.5 * I`. -/
theorem one_step_exact_recovery_witness :
    (∃ L, IsLowerTriangular L ∧ L * Lᵀ = scenarioTrueSigma) ∧
    IsUnit scenarioTrueSigma.det ∧
    ∃ w, stepCore Reparameterization.default 1
        (conjugateLossEval scenarioTrueMu scenarioTrueSigma scenarioInit) scenarioInit
          = some w ∧ w.q_mu = scenarioTrueMu ∧ covOf w = scenarioTrueSigma := by
  have hflex : ∃ L, IsLowerTriangular L ∧ L * Lᵀ = scenarioTrueSigma := by
    refine ⟨Real.sqrt ((1 : ℝ) / 2) • 1, ?_, ?_⟩
    · intro i j hij
      rw [Matrix.smul_apply, Matrix.one_apply_ne (ne_of_lt hij), smul_zero]
    · rw [Matrix.transpose_smul, Matrix.transpose_one, Matrix.smul_mul, Matrix.mul_smul,
        Matrix.mul_one, smul_smul, Real.mul_self_sqrt (by norm_num), scenarioTrueSigma]
  have hdet : IsUnit scenarioTrueSigma.det := by
    rw [scenarioTrueSigma, Matrix.det_smul, Matrix.det_one]
    norm_num
  exact ⟨hflex, hdet,
    one_step_exact_recovery scenarioTrueMu scenarioTrueSigma hflex hdet scenarioInit⟩

/-- A minimal valid parameter pair used to instantiate the claims concretely. -/
def samplePair : ParameterPair := ⟨[0], [[1]], "default"⟩

/-- A loss-callable stream whose every evaluation has value `0` and zero gradients. -/
def zeroLossStream : ℕ → LossEvalL := fun _ => ⟨0, [0], [[0]]⟩

/-- The typed view of `samplePair`: zero mean, identity sqrt factor. -/
def sampleState : VariationalGaussian 1 := ⟨0, 1⟩

theorem ofTag_samplePair : Reparameterization.ofTag samplePair.tag =
    some Reparameterization.default := rfl

theorem wellShaped_samplePair : wellShaped samplePair := by
  constructor
  · rfl
  · intro r hr
    simp only [samplePair, List.mem_singleton] at hr
    rw [hr]
    rfl

theorem finView_samplePair : sampleState = finView samplePair := by
  refine congrArg₂ VariationalGaussian.mk ?_ ?_
  · funext i
    rw [Subsingleton.elim i 0]
    rfl
  · funext i j
    rw [Subsingleton.elim i 0, Subsingleton.elim j 0,
      show ((1 : Matrix (Fin 1) (Fin 1) ℝ) 0 0) = 1 from Matrix.one_apply_eq 0]
    rfl

theorem lossEvalAt_zeroLossStream (k : ℕ) :
    (⟨0, 0, 0⟩ : LossEval 1) = lossEvalAt samplePair.q_mu.length (zeroLossStream k) := by
  refine congrArg₂ (LossEval.mk 0) ?_ ?_
  · funext i
    rw [Subsingleton.elim i 0]
    rfl
  · funext i j
    rw [Subsingleton.elim i 0, Subsingleton.elim j 0]
    rfl

theorem naturalGradOf_zeroGrad {n : ℕ} (v : VariationalGaussian n) :
    naturalGradOf Reparameterization.default v ⟨0, 0, 0⟩ = ⟨0, 0⟩ := by
  rw [naturalGradOf]
  show expectationGradOfMeanGrad v.q_mu 0 0 = _
  rw [expectationGradOfMeanGrad]
  refine congrArg₂ VecMat.mk ?_ rfl
  rw [Matrix.zero_mulVec, smul_zero, sub_zero]

theorem naturalOf_sampleState : naturalOf sampleState = ⟨0, (-(1 : ℝ) / 2) • 1⟩ := by
  rw [naturalOf, covOf]
  show naturalOfMeanCov (0 : Fin 1 → ℝ)
    ((1 : Matrix (Fin 1) (Fin 1) ℝ) * (1 : Matrix (Fin 1) (Fin 1) ℝ)ᵀ) = _
  rw [Matrix.transpose_one, Matrix.mul_one, naturalOfMeanCov, inv_one, Matrix.mulVec_zero]

theorem proposedUpdate_sample :
    proposedUpdate Reparameterization.default 1 (⟨0, 0, 0⟩ : LossEval 1) sampleState
      = (0, 1) := by
  rw [proposedUpdate, naturalGradOf_zeroGrad, naturalOf_sampleState]
  have ht : VecMat.sub (⟨0, (-(1 : ℝ) / 2) • 1⟩ : VecMat 1) (VecMat.smul 1 ⟨0, 0⟩)
      = ⟨0, (-(1 : ℝ) / 2) • 1⟩ := by
    show VecMat.mk ((0 : Fin 1 → ℝ) - (1 : ℝ) • (0 : Fin 1 → ℝ))
      ((-(1 : ℝ) / 2) • (1 : Matrix (Fin 1) (Fin 1) ℝ)
        - (1 : ℝ) • (0 : Matrix (Fin 1) (Fin 1) ℝ)) = _
    rw [smul_zero, sub_zero, smul_zero, sub_zero]
  rw [ht, meanCovOfNatural]
  show ((((-2 : ℝ) • ((-(1 : ℝ) / 2) • (1 : Matrix (Fin 1) (Fin 1) ℝ)))⁻¹ *ᵥ (0 : Fin 1 → ℝ),
    (((-2 : ℝ) • ((-(1 : ℝ) / 2) • (1 : Matrix (Fin 1) (Fin 1) ℝ))))⁻¹)) = _
  have hS : ((-2 : ℝ) • ((-(1 : ℝ) / 2) • (1 : Matrix (Fin 1) (Fin 1) ℝ))) = 1 := by
    rw [smul_smul]
    norm_num
  rw [hS, inv_one, Matrix.mulVec_zero]

/-- The identity matrix is its own Cholesky factor. -/
theorem hasCholesky_one {n : ℕ} : HasCholesky (1 : Matrix (Fin n) (Fin n) ℝ) := by
  refine ⟨1, fun i j hij => Matrix.one_apply_ne (ne_of_lt hij), fun i => ?_, ?_⟩
  · rw [Matrix.one_apply_eq]
    exact zero_le_one
  · rw [Matrix.transpose_one, Matrix.mul_one]

/-- A valid configuration reduces the step to the core update on the typed view, after a
single draw from the loss stream. -/
theorem naturalGradientStep_valid (gamma : ℝ) (losses : ℕ → LossEvalL) (p : ParameterPair)
    (calls : ℕ) (rep : Reparameterization)
    (htag : Reparameterization.ofTag p.tag = some rep) (hgamma : 0 < gamma)
    (hshape : wellShaped p) :
    naturalGradientStep gamma losses p calls =
      match stepCore rep gamma (lossEvalAt p.q_mu.length (losses calls)) (finView p) with
      | some w => (Except.ok (pairOfCore w p.tag), calls + 1)
      | none => (Except.error NatGradError.numericalError, calls + 1) := by
  simp only [naturalGradientStep, htag]
  rw [if_pos ⟨hgamma, hshape⟩]

/-- C2: for every valid invocation whose proposed covariance admits a Cholesky factor, the
committed update is exactly `eta_new = eta_old - gamma * natural_gradient` - with the
natural gradient given by the loss's Euclidean gradient expressed in the expectation
parameterization - converted back to `(q_mu, q_sqrt)` through a Cholesky factorization of
the new covariance. -/
theorem step_natural_parameter_update (gamma : ℝ) (losses : ℕ → LossEvalL)
    (p : ParameterPair) (calls : ℕ) (rep : Reparameterization)
    (htag : Reparameterization.ofTag p.tag = some rep) (hgamma : 0 < gamma)
    (hshape : wellShaped p)
    (hchol : HasCholesky (proposedUpdate rep gamma
      (lossEvalAt p.q_mu.length (losses calls)) (finView p)).2) :
    naturalGradientStep gamma losses p calls =
      (Except.ok (pairOfCore
        ⟨(proposedUpdate rep gamma (lossEvalAt p.q_mu.length (losses calls)) (finView p)).1,
         cholesky (proposedUpdate rep gamma (lossEvalAt p.q_mu.length (losses calls))
           (finView p)).2⟩ p.tag), calls + 1) ∧
    proposedUpdate rep gamma (lossEvalAt p.q_mu.length (losses calls)) (finView p) =
      meanCovOfNatural (VecMat.sub (naturalOf (finView p)) (VecMat.smul gamma
        (naturalGradOf rep (finView p) (lossEvalAt p.q_mu.length (losses calls))))) ∧
    cholesky (proposedUpdate rep gamma (lossEvalAt p.q_mu.length (losses calls))
        (finView p)).2 *
      (cholesky (proposedUpdate rep gamma (lossEvalAt p.q_mu.length (losses calls))
        (finView p)).2)ᵀ =
      (proposedUpdate rep gamma (lossEvalAt p.q_mu.length (losses calls)) (finView p)).2 := by
  refine ⟨?_, rfl, (cholesky_spec hchol).2.2⟩
  rw [naturalGradientStep_valid gamma losses p calls rep htag hgamma hshape]
  have hstep : stepCore rep gamma (lossEvalAt p.q_mu.length (losses calls)) (finView p) =
      some ⟨(proposedUpdate rep gamma (lossEvalAt p.q_mu.length (losses calls))
          (finView p)).1,
        cholesky (proposedUpdate rep gamma (lossEvalAt p.q_mu.length (losses calls))
          (finView p)).2⟩ := by
    rw [stepCore]
    exact if_pos hchol
  rw [hstep]

/-- Witness for C2: a valid one-dimensional invocation with a zero loss gradient commits the
update computed by the natural-parameter formula. -/
theorem step_natural_parameter_update_witness :
    Reparameterization.ofTag samplePair.tag = some Reparameterization.default ∧
    (0 : ℝ) < 1 ∧ wellShaped samplePair ∧
    naturalGradientStep 1 zeroLossStream samplePair 0 =
      (Except.ok (pairOfCore
        ⟨(proposedUpdate Reparameterization.default 1
            (lossEvalAt samplePair.q_mu.length (zeroLossStream 0)) (finView samplePair)).1,
         cholesky (proposedUpdate Reparameterization.default 1
            (lossEvalAt samplePair.q_mu.length (zeroLossStream 0)) (finView samplePair)).2⟩
          samplePair.tag), 0 + 1) := by
  have hchol : HasCholesky (proposedUpdate Reparameterization.default 1
      (lossEvalAt samplePair.q_mu.length (zeroLossStream 0)) (finView samplePair)).2 := by
    rw [← lossEvalAt_zeroLossStream, ← finView_samplePair, proposedUpdate_sample]
    exact hasCholesky_one
  exact ⟨ofTag_samplePair, one_pos, wellShaped_samplePair,
    (step_natural_parameter_update 1 zeroLossStream samplePair 0 Reparameterization.default
      ofTag_samplePair one_pos wellShaped_samplePair hchol).1⟩

/-- On an invalid configuration the step reports a `ConfigurationError` without consulting
the loss callable. -/
theorem naturalGradientStep_invalid (gamma : ℝ) (losses : ℕ → LossEvalL)
    (p : ParameterPair) (calls : ℕ)
    (hbad : Reparameterization.ofTag p.tag = none ∨ ¬ 0 < gamma ∨ ¬ wellShaped p) :
    naturalGradientStep gamma losses p calls =
      (Except.error NatGradError.configurationError, calls) := by
  cases htag : Reparameterization.ofTag p.tag with
  | none => simp only [naturalGradientStep, htag]
  | some rep =>
    have hcond : ¬ (0 < gamma ∧ wellShaped p) := by
      rcases hbad with h | h | h
      · rw [htag] at h
        exact absurd h (by simp)
      · exact fun hc => h hc.1
      · exact fun hc => h hc.2
    simp only [naturalGradientStep, htag]
    rw [if_neg hcond]

/-- C3: the step is all-or-nothing with respect to the parameter pair - an invalid
configuration (unknown reparameterization tag, non-positive `gamma`, or mismatched
`q_mu`/`q_sqrt` shapes) is reported as a `ConfigurationError`, and after any reported error,
configuration or numerical, the parameter pair equals its pre-call value exactly. -/
theorem step_all_or_nothing (gamma : ℝ) (losses : ℕ → LossEvalL) (p : ParameterPair)
    (calls : ℕ) :
    ((Reparameterization.ofTag p.tag = none ∨ ¬ 0 < gamma ∨ ¬ wellShaped p) →
      (runStep gamma losses p calls).2.2 = some NatGradError.configurationError) ∧
    ∀ e, (runStep gamma losses p calls).2.2 = some e →
      (runStep gamma losses p calls).1 = p := by
  constructor
  · intro hbad
    rw [runStep, naturalGradientStep_invalid gamma losses p calls hbad]
  · intro e
    rw [runStep]
    rcases hng : naturalGradientStep gamma losses p calls with ⟨r, k⟩
    cases r with
    | ok q => intro he; exact absurd he (by simp)
    | error e2 => intro _; rfl

/-- Witness for C3: with `gamma = 0` the invocation reports a `ConfigurationError` and the
parameter pair is exactly its pre-call value. -/
theorem step_all_or_nothing_witness :
    (¬ (0 : ℝ) < 0) ∧
    (runStep 0 zeroLossStream samplePair 0).2.2 = some NatGradError.configurationError ∧
    (runStep 0 zeroLossStream samplePair 0).1 = samplePair := by
  have h := step_all_or_nothing 0 zeroLossStream samplePair 0
  have hzero : ¬ (0 : ℝ) < 0 := lt_irrefl 0
  have he := h.1 (Or.inr (Or.inl hzero))
  exact ⟨hzero, he, h.2 _ he⟩

/-- C4: every invocation that passes configuration validation evaluates the loss callable
exactly once - the callable's state advances by exactly one draw, whether or not the update
commits - and the invocation's entire outcome depends only on that single draw, so the
optimizer never re-evaluates the callable mid-step even though each call may return a
different (freshly sampled) loss. -/
theorem step_evaluates_loss_once (gamma : ℝ) (losses losses2 : ℕ → LossEvalL)
    (p : ParameterPair) (calls : ℕ) (rep : Reparameterization)
    (htag : Reparameterization.ofTag p.tag = some rep) (hgamma : 0 < gamma)
    (hshape : wellShaped p) (hsame : losses2 calls = losses calls) :
    (naturalGradientStep gamma losses p calls).2 = calls + 1 ∧
    naturalGradientStep gamma losses2 p calls = naturalGradientStep gamma losses p calls := by
  constructor
  · rw [naturalGradientStep_valid gamma losses p calls rep htag hgamma hshape]
    cases stepCore rep gamma (lossEvalAt p.q_mu.length (losses calls)) (finView p) with
    | some w => rfl
    | none => rfl
  · rw [naturalGradientStep_valid gamma losses p calls rep htag hgamma hshape,
      naturalGradientStep_valid gamma losses2 p calls rep htag hgamma hshape, hsame]

/-- Witness for C4: a valid one-dimensional invocation advances the callable's evaluation
count from `0` to exactly `1`. -/
theorem step_evaluates_loss_once_witness :
    Reparameterization.ofTag samplePair.tag = some Reparameterization.default ∧
    (0 : ℝ) < 1 ∧ wellShaped samplePair ∧
    (naturalGradientStep 1 zeroLossStream samplePair 0).2 = 0 + 1 := by
  exact ⟨ofTag_samplePair, one_pos, wellShaped_samplePair,
    (step_evaluates_loss_once 1 zeroLossStream zeroLossStream samplePair 0
      Reparameterization.default ofTag_samplePair one_pos wellShaped_samplePair rfl).1⟩

/-- C5: when a multi-output step commits, it produces, for each output dimension, exactly
the state that the single-output step produces on that output's `(q_mu_i, q_sqrt_i)` pair
alone, given that output's own gradient - there is no cross-dimension coupling. -/
theorem multi_output_independent {n : ℕ} (rep : Reparameterization) (gamma : ℝ)
    (gs : List (LossEval n)) (vs ws : List (VariationalGaussian n))
    (h : multiStepCore rep gamma gs vs = some ws) :
    ws.length = vs.length ∧
    ∀ i (hg : i < gs.length) (hv : i < vs.length) (hw : i < ws.length),
      stepCore rep gamma (gs.get ⟨i, hg⟩) (vs.get ⟨i, hv⟩) = some (ws.get ⟨i, hw⟩) := by
  induction gs generalizing vs ws with
  | nil =>
    cases vs with
    | nil =>
      rw [multiStepCore] at h
      injection h with h
      subst h
      exact ⟨rfl, fun i hg => absurd hg (Nat.not_lt_zero i)⟩
    | cons v vs =>
      rw [multiStepCore] at h
      exact Option.noConfusion h
  | cons g gs ih =>
    cases vs with
    | nil =>
      rw [multiStepCore] at h
      exact Option.noConfusion h
    | cons v vs =>
      rw [multiStepCore] at h
      rcases hsw : stepCore rep gamma g v with _ | w
      · rw [hsw] at h
        exact Option.noConfusion
          (h : (none : Option (List (VariationalGaussian n))) = some ws)
      · rw [hsw] at h
        rcases hmw : multiStepCore rep gamma gs vs with _ | ws2
        · rw [hmw] at h
          exact Option.noConfusion
            (h : (none : Option (List (VariationalGaussian n))) = some ws)
        · rw [hmw] at h
          have h2 : w :: ws2 = ws := by
            injection (h : some (w :: ws2) = some ws)
          subst h2
          obtain ⟨ihlen, ihget⟩ := ih vs ws2 hmw
          refine ⟨by rw [List.length_cons, List.length_cons, ihlen], ?_⟩
          intro i hg hv hw
          match i with
          | 0 => exact hsw
          | Nat.succ i =>
            exact ihget i (Nat.lt_of_succ_lt_succ hg) (Nat.lt_of_succ_lt_succ hv)
              (Nat.lt_of_succ_lt_succ hw)

/-- The core step on the one-dimensional sample state with a zero loss gradient. -/
theorem stepCore_sample :
    stepCore Reparameterization.default 1 (⟨0, 0, 0⟩ : LossEval 1) sampleState
      = some ⟨0, cholesky 1⟩ := by
  rw [stepCore, proposedUpdate_sample, if_pos hasCholesky_one]

/-- A committing two-output invocation on two copies of the sample state. -/
theorem multiStepCore_sample :
    multiStepCore Reparameterization.default 1
        [(⟨0, 0, 0⟩ : LossEval 1), ⟨0, 0, 0⟩] [sampleState, sampleState]
      = some [⟨0, cholesky 1⟩, ⟨0, cholesky 1⟩] := by
  rw [multiStepCore, stepCore_sample, multiStepCore, stepCore_sample, multiStepCore]
  rfl

/-- Witness for C5: on a concrete committing two-output invocation, output `0` of the
multi-output result equals the single-output step on that output's pair alone. -/
theorem multi_output_independent_witness :
    multiStepCore Reparameterization.default 1
        [(⟨0, 0, 0⟩ : LossEval 1), ⟨0, 0, 0⟩] [sampleState, sampleState]
      = some [⟨0, cholesky 1⟩, ⟨0, cholesky 1⟩] ∧
    stepCore Reparameterization.default 1 (⟨0, 0, 0⟩ : LossEval 1) sampleState
      = some ⟨0, cholesky 1⟩ := by
  refine ⟨multiStepCore_sample, ?_⟩
  exact (multi_output_independent Reparameterization.default 1 _ _ _
    multiStepCore_sample).2 0 (by norm_num) (by norm_num) (by norm_num)

/-- C6: two training runs that are seeded identically and fed the same sequence of
minibatches produce identical parameter trajectories at every step - the loss stream is a
pure function of seed and minibatch sequence, and each step is a pure function of its
inputs. -/
theorem deterministic_trajectories (mk : ℕ → (ℕ → Minibatch) → ℕ → LossEvalL) (gamma : ℝ)
    (seed1 seed2 : ℕ) (batches1 batches2 : ℕ → Minibatch) (p0 : ParameterPair)
    (hseed : seed1 = seed2) (hbatch : batches1 = batches2) :
    ∀ k, trainTrajectory gamma (seededLossStream mk seed1 batches1) p0 k
        = trainTrajectory gamma (seededLossStream mk seed2 batches2) p0 k := by
  subst hseed
  subst hbatch
  intro k
  rfl

/-- A seeded loss-stream generator that ignores seed and data, for concrete instantiation. -/
def constMk : ℕ → (ℕ → Minibatch) → ℕ → LossEvalL := fun _ _ => zeroLossStream

/-- An empty minibatch sequence, for concrete instantiation. -/
def emptyBatches : ℕ → Minibatch := fun _ => []

/-- Witness for C6: two concrete identically-seeded, identically-fed runs agree at step 3. -/
theorem deterministic_trajectories_witness :
    (0 : ℕ) = 0 ∧
    trainTrajectory 1 (seededLossStream constMk 0 emptyBatches) samplePair 3
      = trainTrajectory 1 (seededLossStream constMk 0 emptyBatches) samplePair 3 :=
  ⟨rfl, deterministic_trajectories constMk 1 0 0 emptyBatches emptyBatches samplePair
    rfl rfl 3⟩

/-- For one underlying loss, the gradient delivered in `XiSqrtMeanVar` coordinates, mapped
back through the variant's Jacobian, is the same natural gradient as the one obtained from
the `default` coordinates - the chain rule is exact, provided the sqrt factor is invertible
and the loss's covariance gradient is symmetric. -/
theorem naturalGradOf_xi_eq {n : ℕ} (Gmu : VariationalGaussian n → Fin n → ℝ)
    (GSig : VariationalGaussian n → Matrix (Fin n) (Fin n) ℝ) (v : VariationalGaussian n)
    (hsym : (GSig v)ᵀ = GSig v) (hinv : IsUnit v.q_sqrt.det) :
    naturalGradOf Reparameterization.xiSqrtMeanVar v
        (lossEvalFor Reparameterization.xiSqrtMeanVar Gmu GSig v)
      = naturalGradOf Reparameterization.default v
        (lossEvalFor Reparameterization.default Gmu GSig v) := by
  have hmat : (meanGradOfRep Reparameterization.xiSqrtMeanVar v
      (lossEvalFor Reparameterization.xiSqrtMeanVar Gmu GSig v)).2 = GSig v := by
    show ((1 : ℝ) / 2) • (((GSig v + (GSig v)ᵀ) * v.q_sqrt) * v.q_sqrt⁻¹) = GSig v
    rw [Matrix.mul_assoc, Matrix.mul_nonsing_inv _ hinv, Matrix.mul_one, hsym]
    ext i j
    simp only [Matrix.smul_apply, Matrix.add_apply, smul_eq_mul]
    ring
  rw [naturalGradOf, naturalGradOf, hmat]
  rfl

/-- Under the same provisos the whole core step agrees between the two variants: the step is
taken in natural-parameter space either way. -/
theorem stepCore_xi_eq {n : ℕ} (gamma : ℝ) (Gmu : VariationalGaussian n → Fin n → ℝ)
    (GSig : VariationalGaussian n → Matrix (Fin n) (Fin n) ℝ) (v : VariationalGaussian n)
    (hsym : (GSig v)ᵀ = GSig v) (hinv : IsUnit v.q_sqrt.det) :
    stepCore Reparameterization.xiSqrtMeanVar gamma
        (lossEvalFor Reparameterization.xiSqrtMeanVar Gmu GSig v) v
      = stepCore Reparameterization.default gamma
        (lossEvalFor Reparameterization.default Gmu GSig v) v := by
  rw [stepCore, stepCore, proposedUpdate, proposedUpdate,
    naturalGradOf_xi_eq Gmu GSig v hsym hinv]

/-- C7: for the same underlying loss and the same initial state, the `default` and
`XiSqrtMeanVar` reparameterizations generate the same trajectory at every step size (the
spec's step is taken in natural-parameter space regardless of input coordinates), provided
the visited sqrt factors stay invertible and the loss's covariance gradient is symmetric;
in particular, one trajectory converges to a point exactly when the other converges to the
same point - the two runs share their fixed point. -/
theorem reparameterization_same_fixed_point {n : ℕ} (gamma : ℝ)
    (Gmu : VariationalGaussian n → Fin n → ℝ)
    (GSig : VariationalGaussian n → Matrix (Fin n) (Fin n) ℝ)
    (v0 : VariationalGaussian n) (hsym : ∀ v, (GSig v)ᵀ = GSig v)
    (hinv : ∀ k, IsUnit
      ((lossTrajectory Reparameterization.default gamma Gmu GSig v0 k).q_sqrt).det) :
    (∀ k, lossTrajectory Reparameterization.xiSqrtMeanVar gamma Gmu GSig v0 k
        = lossTrajectory Reparameterization.default gamma Gmu GSig v0 k) ∧
    ∀ p : (Fin n → ℝ) × Matrix (Fin n) (Fin n) ℝ,
      Filter.Tendsto
          (fun k => coords (lossTrajectory Reparameterization.xiSqrtMeanVar gamma
            Gmu GSig v0 k)) Filter.atTop (nhds p) ↔
        Filter.Tendsto
          (fun k => coords (lossTrajectory Reparameterization.default gamma
            Gmu GSig v0 k)) Filter.atTop (nhds p) := by
  have heq : ∀ k, lossTrajectory Reparameterization.xiSqrtMeanVar gamma Gmu GSig v0 k
      = lossTrajectory Reparameterization.default gamma Gmu GSig v0 k := by
    intro k
    induction k with
    | zero => rfl
    | succ k ih =>
      show (stepCore Reparameterization.xiSqrtMeanVar gamma _ _).getD _ = _
      rw [ih, stepCore_xi_eq gamma Gmu GSig _ (hsym _) (hinv k)]
      rfl
  refine ⟨heq, fun p => ?_⟩
  rw [show (fun k => coords (lossTrajectory Reparameterization.xiSqrtMeanVar gamma
      Gmu GSig v0 k)) = fun k => coords (lossTrajectory Reparameterization.default gamma
        Gmu GSig v0 k) from funext fun k => congrArg coords (heq k)]

/-- In dimension one the Cholesky factor of the identity is unique, so the modelled
factorization facility returns the identity itself. -/
theorem cholesky_one_dim1 : cholesky (1 : Matrix (Fin 1) (Fin 1) ℝ) = 1 := by
  obtain ⟨hlow, hdiag, hmul⟩ := cholesky_spec (hasCholesky_one (n := 1))
  have h00 : cholesky (1 : Matrix (Fin 1) (Fin 1) ℝ) 0 0 *
      cholesky (1 : Matrix (Fin 1) (Fin 1) ℝ) 0 0 = 1 := by
    have h := congrFun (congrFun hmul 0) 0
    simpa [Matrix.mul_apply, Fin.sum_univ_one, Matrix.transpose_apply,
      Matrix.one_apply] using h
  have h1 : cholesky (1 : Matrix (Fin 1) (Fin 1) ℝ) 0 0 = 1 := by
    rcases mul_self_eq_one_iff.mp h00 with h | h
    · exact h
    · have := hdiag 0
      rw [h] at this
      linarith
  funext i j
  rw [Subsingleton.elim i 0, Subsingleton.elim j 0, h1, Matrix.one_apply_eq]

/-- With the zero loss the default trajectory from the sample state is constant. -/
theorem lossTrajectory_const_sample :
    ∀ k, lossTrajectory Reparameterization.default 1 (fun _ => 0) (fun _ => 0)
      sampleState k = sampleState := by
  intro k
  induction k with
  | zero => rfl
  | succ k ih =>
    show (stepCore Reparameterization.default 1 _ _).getD _ = _
    rw [ih]
    have hg : lossEvalFor Reparameterization.default
        (fun _ => (0 : Fin 1 → ℝ)) (fun _ => (0 : Matrix (Fin 1) (Fin 1) ℝ)) sampleState
          = (⟨0, 0, 0⟩ : LossEval 1) := rfl
    rw [hg, stepCore_sample]
    show VariationalGaussian.mk 0 (cholesky 1) = sampleState
    rw [cholesky_one_dim1]
    rfl

/-- Witness for C7: with the zero loss from the sample state, the two reparameterizations
agree at step 5 of their trajectories. -/
theorem reparameterization_same_fixed_point_witness :
    lossTrajectory Reparameterization.xiSqrtMeanVar 1 (fun _ => 0) (fun _ => 0)
        sampleState 5
      = lossTrajectory Reparameterization.default 1 (fun _ => 0) (fun _ => 0)
        sampleState 5 := by
  have hsym : ∀ v : VariationalGaussian 1,
      ((fun _ => (0 : Matrix (Fin 1) (Fin 1) ℝ)) v)ᵀ = (fun _ => 0) v := fun v =>
    Matrix.transpose_zero
  have hinv : ∀ k, IsUnit ((lossTrajectory Reparameterization.default 1
      (fun _ => (0 : Fin 1 → ℝ)) (fun _ => (0 : Matrix (Fin 1) (Fin 1) ℝ))
      sampleState k).q_sqrt).det := by
    intro k
    rw [lossTrajectory_const_sample k]
    show IsUnit (1 : Matrix (Fin 1) (Fin 1) ℝ).det
    rw [Matrix.det_one]
    exact isUnit_one
  exact (reparameterization_same_fixed_point 1 (fun _ => 0) (fun _ => 0) sampleState
    hsym hinv).1 5

/-- C8: the step updates the world only through its parameter pair - everything outside the
given pair is left untouched, and the pair slot holds exactly the in-place update that
`runStep` produced (the pre-call pair when an error was raised); the operation yields no
value beyond the updated world, the callable's state and the error report. -/
theorem step_frame_in_place {α : Type} (gamma : ℝ) (losses : ℕ → LossEvalL) (calls : ℕ)
    (w : TrainingWorld α) :
    (minimizeStep gamma losses calls w).1.rest = w.rest ∧
    (minimizeStep gamma losses calls w).1.pair = (runStep gamma losses w.pair calls).1 ∧
    (minimizeStep gamma losses calls w).2 = (runStep gamma losses w.pair calls).2 :=
  ⟨rfl, rfl, rfl⟩

/-- C9: the natural-gradient step updates the values of the pair passed in `var_list`
regardless of the `trainable` flags (the flags never enter the computation and are left as
they were), while clearing a variable's `trainable` flag removes it from the model's
`trainable_variables` seen by other optimizers. -/
theorem natgrad_ignores_trainable_flag (gamma : ℝ) (losses : ℕ → LossEvalL) (calls : ℕ)
    (xs : List ℝ) (ms : List (List ℝ)) (t1 t2 : Bool) (tag : String)
    (vars : List ModelVariable) :
    (minimizeVars gamma losses calls ⟨xs, t1⟩ ⟨ms, t2⟩ tag).1.1.value
        = (minimizeVars gamma losses calls ⟨xs, true⟩ ⟨ms, true⟩ tag).1.1.value ∧
    (minimizeVars gamma losses calls ⟨xs, t1⟩ ⟨ms, t2⟩ tag).1.2.value
        = (minimizeVars gamma losses calls ⟨xs, true⟩ ⟨ms, true⟩ tag).1.2.value ∧
    (minimizeVars gamma losses calls ⟨xs, t1⟩ ⟨ms, t2⟩ tag).1.1.trainable = t1 ∧
    (minimizeVars gamma losses calls ⟨xs, t1⟩ ⟨ms, t2⟩ tag).1.2.trainable = t2 ∧
    trainableVariables
        (ModelVariable.vec ⟨xs, false⟩ :: ModelVariable.mat ⟨ms, false⟩ :: vars)
      = trainableVariables vars := by
  refine ⟨rfl, rfl, rfl, rfl, ?_⟩
  rw [trainableVariables, trainableVariables, List.filter_cons_of_neg, List.filter_cons_of_neg]
  · simp [ModelVariable.isTrainable]
  · simp [ModelVariable.isTrainable]

end GPflow

namespace GPflowInit

/-- C10: importing the `gpflow` package enables tensorflow eager execution for the whole
process - running the import-time statements of `gpflow/__init__.py` from a state where
eager execution is off ends with it on, `tf.enable_eager_execution()` appears exactly once
in the statement sequence, and by the time any re-exporting statement runs, eager execution
has already been enabled. -/
theorem import_enables_eager_before_reexports :
    (runImport ⟨false⟩ gpflowImportProgram).eagerEnabled = true ∧
    gpflowImportProgram.count ImportEffect.enableEagerExecution = 1 ∧
    ∀ k, k < gpflowImportProgram.length →
      (gpflowImportProgram.getD k ImportEffect.importTensorflow).isReexport = true →
        (runImport ⟨false⟩ (gpflowImportProgram.take k)).eagerEnabled = true := by
  refine ⟨rfl, rfl, ?_⟩
  decide

/-- Witness for C10: the first re-export (position 2, the `__version__` re-export) runs with
eager execution already enabled. -/
theorem import_enables_eager_before_reexports_witness :
    (2 < gpflowImportProgram.length ∧
      (gpflowImportProgram.getD 2 ImportEffect.importTensorflow).isReexport = true) ∧
    (runImport ⟨false⟩ (gpflowImportProgram.take 2)).eagerEnabled = true :=
  ⟨⟨by decide, by decide⟩,
    import_enables_eager_before_reexports.2.2 2 (by decide) (by decide)⟩

end GPflowInit
